import Mathlib

/-!
Shallow embedding of the concurrent block-range streaming engine of
the `eos-blockchain-data` repository, covering:

* `src/main.py` — the `run` coroutine (range splitting, gathering, file
  output), its inner `stream_blocks` worker, and the `__main__` entry point
  (argument validation, block-processor loading, signature checking);
* `src/pyfirehose/__main__.py` — the `main` entry point (module-level
  authentication, argument validation, signature checking);
* `src/pyfirehose/block_extractors/common.py` — `stream_blocks` (the
  per-sub-range stream worker with its `BlockStreamException` error path and
  request-parameter dictionary) and `process_blocks`.

Python `int` values are embedded as `Int`; Python floor division `//` is
`Int.fdiv`.  A division by zero, which raises `ZeroDivisionError` in Python,
is embedded as an `Option.none` result.  Network effects (the authenticator
POST request, opening a gRPC stream, writing the output file) are recorded
in an explicit effect trace so that ordering claims about them can be
stated.
-/

/- ---------------------------------------------------------------------- -/
/- Data model: block processors and their inspected signatures            -/
/- ---------------------------------------------------------------------- -/

/-- A Python type annotation as compared by the signature check in
`src/main.py` lines 209-225 / `src/pyfirehose/__main__.py` lines 103-126:
the checks only distinguish `codec_pb2.Block`, `typing.Dict` and any other
type, so other types are indexed by a number. -/
inductive Ann
  | block
  | dict
  | other (n : Nat)
deriving DecidableEq

/-- What `inspect` reports about a loaded block-processor candidate:
`returnAnn` is `signature.return_annotation` (`none` embeds
`signature.empty`), `paramAnns` is the list
`[p_type.annotation for (_, p_type) in signature.parameters.items()]`
(`none` embeds `inspect.Parameter.empty`), and `isGenerator` is
`inspect.isgeneratorfunction(block_processor)`. -/
structure ProcessorInfo where
  returnAnn : Option Ann
  paramAnns : List (Option Ann)
  isGenerator : Bool
deriving DecidableEq

/-- Outcome of the signature compatibility check: log a warning and skip
the check, raise a `TypeError`, or pass. -/
inductive CheckResult
  | warn
  | typeError
  | ok
deriving DecidableEq

/-- The signature check of `src/main.py` lines 212-222 (identical logic in
`src/pyfirehose/__main__.py` lines 106-122).  The middle disjunct of the
warning condition embeds Python's
`(not parameters_annotations and signature.parameters)`; since the
annotations list is built from the parameters, the two tests are over the
same list and the disjunct can never hold. -/
def check_signature (p : ProcessorInfo) : CheckResult :=
  if p.returnAnn = none
     ∨ (p.paramAnns = [] ∧ p.paramAnns ≠ [])
     ∨ p.paramAnns.any (fun t => t = none)
  then .warn
  else if ¬ (some Ann.block ∈ p.paramAnns)
          ∨ p.returnAnn ≠ some Ann.dict
          ∨ ¬ p.isGenerator
  then .typeError
  else .ok

/- ---------------------------------------------------------------------- -/
/- Range splitter (src/main.py lines 124-143)                             -/
/- ---------------------------------------------------------------------- -/

/-- The clamp `max_tasks = block_diff if block_diff < max_tasks else
max_tasks` of `src/main.py` line 125. -/
def clampTasks (block_diff max_tasks : Int) : Int :=
  if block_diff < max_tasks then block_diff else max_tasks

/-- The range splitter of `src/main.py` lines 124-143: clamp the task
count, compute `split = block_diff // max_tasks`, and give task `i` the
sub-range `[period_start + i*split, period_start + (i+1)*split)`, the last
task extending to `period_end`.  When the clamped task count is `0` the
Python code raises `ZeroDivisionError` at `block_diff // max_tasks`,
embedded as `none`. -/
def splitRanges (period_start period_end max_tasks : Int) :
    Option (List (Int × Int)) :=
  let block_diff := period_end - period_start
  let mt := clampTasks block_diff max_tasks
  if mt = 0 then none
  else
    let split := Int.fdiv block_diff mt
    some ((List.range mt.toNat).map fun (i : Nat) =>
      (period_start + (i : Int) * split,
       if (i : Int) < mt - 1 then period_start + ((i : Int) + 1) * split
       else period_end))

/- ---------------------------------------------------------------------- -/
/- Effect traces and the run / entry-point pipelines                      -/
/- ---------------------------------------------------------------------- -/

/-- An observable effect of a run: the authenticator POST request (network),
opening one server-streaming gRPC call for a sub-range (network), or
writing the output `.jsonl` file. -/
inductive Effect
  | authRequest
  | openStream (start stop_block : Int)
  | writeFile (rows : Nat)
deriving DecidableEq

/-- How a call to `run` (`src/main.py`) terminates: `sys.exit(1)` on a
failed token request, an uncaught `ZeroDivisionError` from the splitter, or
normal completion having written `rows` rows. -/
inductive RunOutcome
  | authExit
  | zeroDivisionError
  | success (rows : Nat)
deriving DecidableEq

/-- The gathering loop `data = []; for t in tasks: data += await t` of
`src/main.py` lines 145-147, applied to the per-worker result lists in
worker-index order. -/
def run_gather {R : Type} (results : List (List R)) : List R :=
  results.foldl (fun data t => data ++ t) []

/-- The inner `stream_blocks` worker of `src/main.py` lines 82-100 on a
successfully delivered stream: `transactions = []`, then for each response
block every value yielded by the block processor is appended. -/
def main_stream_blocks {B R : Type} (block_processor : B → List R)
    (stream : List B) : List R :=
  stream.foldl (fun transactions b => transactions ++ block_processor b) []

/-- The `run` coroutine of `src/main.py`: request a JWT token (exiting on
failure), split the block range (raising `ZeroDivisionError` when the
clamped task count is zero), open one stream per sub-range, gather the
worker outputs in task order and write them to the output file.  `streams`
gives the blocks each sub-range's stream delivers. -/
def run_main {B R : Type} (authOk : Bool) (period_start period_end max_tasks : Int)
    (block_processor : B → List R) (streams : Int × Int → List B) :
    List Effect × RunOutcome :=
  if ¬ authOk then ([Effect.authRequest], .authExit)
  else
    match splitRanges period_start period_end max_tasks with
    | none => ([Effect.authRequest], .zeroDivisionError)
    | some rs =>
        let data := run_gather
          (rs.map fun r => main_stream_blocks block_processor (streams r))
        (Effect.authRequest ::
           ((rs.map fun r => Effect.openStream r.1 r.2) ++
            [Effect.writeFile data.length]),
         .success data.length)

/-- How the `src/main.py` `__main__` block terminates: `arg_parser.error`
(exit code 2) on an invalid range, `sys.exit(1)` when the block processor
cannot be loaded or fails the signature check, or the outcome of `run`. -/
inductive MainOutcome
  | argparseExit
  | loadExit
  | ran (o : RunOutcome)
deriving DecidableEq

/-- The `__main__` block of `src/main.py` lines 158-240: validate the block
range via `argparse` (before any other work), load the block processor
(`procLoad = none` embeds an import/`getattr` failure), run the signature
check unless disabled (a `TypeError` is caught and turned into
`sys.exit(1)`), then call `run`. -/
def main_py {B R : Type} (period_start period_end max_tasks : Int)
    (disableSigCheck : Bool) (procLoad : Option ProcessorInfo) (authOk : Bool)
    (block_processor : B → List R) (streams : Int × Int → List B) :
    List Effect × MainOutcome :=
  if period_end < period_start then ([], .argparseExit)
  else
    match procLoad with
    | none => ([], .loadExit)
    | some info =>
        if ¬ disableSigCheck ∧ check_signature info = .typeError then
          ([], .loadExit)
        else
          let r := run_main authOk period_start period_end max_tasks
            block_processor streams
          (r.1, .ran r.2)

/-- How `src/pyfirehose/__main__.py`'s `main` terminates: `return 1`, an
uncaught re-raised exception from the processor-loading `try` block, or the
value returned from `process_blocks`. -/
inductive PFOutcome
  | exitOne
  | raisedException
  | returned (rows : Nat)
deriving DecidableEq

/-- Modelled from the spec: `utils.get_auth_token` (the `utils` module is
not under `src/`) performs the authenticator's single pre-run token fetch —
a network request to the authentication endpoint — and returns a bearer
token, or a falsy value on failure.  Embedded as an `authRequest` effect
plus a success flag. -/
def get_auth_token (authOk : Bool) : List Effect × Bool :=
  ([Effect.authRequest], authOk)

/-- The `src/pyfirehose/__main__.py` entry point: at module import time
`JWT = get_auth_token()` runs (line 46), then `main` returns 1 if the token
is falsy, returns 1 if `args.end < args.start`, loads the block processor
and checks its signature (re-raising `AttributeError`/`TypeError`), and
otherwise runs the extractor and `process_blocks`.  The extractor
(`block_extractors/async_single_channel_spawner.py`, not under `src/`) is
abstracted by the effects `runEffects` and row count `runRows` it would
produce. -/
def pyfirehose_main (authOk : Bool) (period_start period_end : Int)
    (disableSigCheck : Bool) (procLoad : Option ProcessorInfo)
    (runEffects : List Effect) (runRows : Nat) : List Effect × PFOutcome :=
  let jwt := get_auth_token authOk
  if ¬ jwt.2 then (jwt.1, .exitOne)
  else if period_end < period_start then (jwt.1, .exitOne)
  else
    match procLoad with
    | none => (jwt.1, .raisedException)
    | some info =>
        if ¬ disableSigCheck ∧ check_signature info = .typeError then
          (jwt.1, .raisedException)
        else (jwt.1 ++ runEffects, .returned runRows)

/- ---------------------------------------------------------------------- -/
/- Stream worker (src/pyfirehose/block_extractors/common.py)              -/
/- ---------------------------------------------------------------------- -/

/-- One item observed by the `async for` loop over the gRPC response
stream: either a delivered response carrying a block, or a
`grpc.aio.AioRpcError` raised while awaiting the next response. -/
inductive StreamItem (B : Type)
  | block (b : B)
  | rpcError
deriving DecidableEq

/-- The `BlockStreamException(start, end, current_block_number)` raised by
`stream_blocks` in `src/pyfirehose/block_extractors/common.py` line 142
(the exception class itself lives in `exceptions.py`, outside `src/`; its
three constructor arguments are taken verbatim from the `raise` site). -/
structure BlockStreamException where
  start : Int
  end_ : Int
  failed_block_num : Int
deriving DecidableEq

/-- The streaming loop of `common.py` lines 112-123 (branch with a block
processor): per delivered response, increment `current_block_number` and
append every value the processor yields; an RPC error raised while awaiting
the next response aborts with `BlockStreamException(start, end,
current_block_number)`. -/
def streamLoopProcessed {B R : Type} (p : B → List R) (start end_ : Int) :
    Int → List R → List (StreamItem B) →
    Except BlockStreamException (List R)
  | _, data, [] => .ok data
  | cur, data, .block b :: rest =>
      streamLoopProcessed p start end_ (cur + 1) (data ++ p b) rest
  | cur, _, .rpcError :: _ => .error ⟨start, end_, cur⟩

/-- The streaming loop of `common.py` lines 124-134 (branch without a block
processor): per delivered response, increment `current_block_number` and
append the raw block; RPC errors abort as in `streamLoopProcessed`. -/
def streamLoopRaw {B : Type} (start end_ : Int) :
    Int → List B → List (StreamItem B) →
    Except BlockStreamException (List B)
  | _, data, [] => .ok data
  | cur, data, .block b :: rest =>
      streamLoopRaw start end_ (cur + 1) (data ++ [b]) rest
  | cur, _, .rpcError :: _ => .error ⟨start, end_, cur⟩

/-- `stream_blocks` of `src/pyfirehose/block_extractors/common.py` lines
67-145: starting from `current_block_number = start` and `data = []`,
consume the stream with one of the two duplicated loops depending on
whether a block processor was supplied; the returned list holds parsed data
(`Sum.inr`) or raw blocks (`Sum.inl`), matching the Python return type
`list[Message | dict]`. -/
def stream_blocks {B R : Type} (start end_ : Int)
    (block_processor : Option (B → List R)) (stream : List (StreamItem B)) :
    Except BlockStreamException (List (B ⊕ R)) :=
  match block_processor with
  | some p => (streamLoopProcessed p start end_ start [] stream).map
      (fun l => l.map Sum.inr)
  | none => (streamLoopRaw start end_ start [] stream).map
      (fun l => l.map Sum.inl)

/-- `process_blocks` of `src/pyfirehose/block_extractors/common.py` lines
45-65: feed every previously extracted raw block to the block processor and
collect everything it yields, in order. -/
def process_blocks {B R : Type} (raw_blocks : List B)
    (block_processor : B → List R) : List R :=
  raw_blocks.foldl (fun data raw => data ++ block_processor raw) []

/- ---------------------------------------------------------------------- -/
/- Request-parameter dictionary (common.py lines 97-103)                  -/
/- ---------------------------------------------------------------------- -/

/-- A Python value stored in the request-parameter dictionary: the engine
only ever distinguishes values by equality, so an integer, a string, or any
other object (indexed by a number) suffices. -/
inductive PyValue
  | int (n : Int)
  | str (s : String)
  | obj (id : Nat)
deriving DecidableEq

/-- A Python `dict` with string keys, as an insertion-ordered association
list with unique keys when built from inserts. -/
def PyDict : Type := List (String × PyValue)

/-- Inserting `kv` into a Python dict: overwrite in place if the key is
present, append otherwise. -/
def dictUpdate (d : List (String × PyValue)) (kv : String × PyValue) :
    List (String × PyValue) :=
  if d.any (fun p => p.1 = kv.1) then
    d.map (fun p => if p.1 = kv.1 then kv else p)
  else d ++ [kv]

/-- The dict literal `{'start_block_num': start, 'stop_block_num': end,
**StubConfig.REQUEST_PARAMETERS, **kwargs}` of `common.py` lines 98-103:
entries are inserted left to right, later entries overwriting earlier
ones. -/
def request_parameters (start stop_block : Int)
    (stubConfigParams cliKwargs : List (String × PyValue)) :
    List (String × PyValue) :=
  (([("start_block_num", PyValue.int start),
     ("stop_block_num", PyValue.int stop_block)]
    ++ stubConfigParams ++ cliKwargs).foldl dictUpdate [])

/-- The value the *last* entry of `es` with key `k` carries, if any: this
is the value Python's left-to-right dict construction retains for `k`. -/
def lookupLastKey : List (String × PyValue) → String → Option PyValue
  | [], _ => none
  | e :: es, k =>
      match lookupLastKey es k with
      | some v => some v
      | none => if e.1 = k then some e.2 else none

/- ---------------------------------------------------------------------- -/
/- Helper lemmas: folds, flatten, stream loops                            -/
/- ---------------------------------------------------------------------- -/

/-- Folding list append from an accumulator concatenates everything. -/
theorem foldl_append_eq_flatten {α : Type} :
    ∀ (l : List (List α)) (acc : List α),
      l.foldl (fun d t => d ++ t) acc = acc ++ l.flatten
  | [], acc => by simp
  | t :: l, acc => by
      rw [List.foldl_cons, foldl_append_eq_flatten l (acc ++ t)]
      simp

/-- Folding append of per-element images concatenates the mapped lists. -/
theorem foldl_append_map_eq_flatten {B R : Type} (p : B → List R) :
    ∀ (blocks : List B) (acc : List R),
      blocks.foldl (fun d b => d ++ p b) acc = acc ++ (blocks.map p).flatten
  | [], acc => by simp
  | b :: bs, acc => by
      rw [List.foldl_cons, foldl_append_map_eq_flatten p bs (acc ++ p b)]
      simp

/-- The gathering loop of `run` concatenates the worker lists in order. -/
theorem run_gather_eq_flatten {R : Type} (results : List (List R)) :
    run_gather results = results.flatten := by
  simpa [run_gather] using foldl_append_eq_flatten results []

/-- `process_blocks` concatenates the processor outputs in block order. -/
theorem process_blocks_eq_flatten {B R : Type} (raw_blocks : List B)
    (block_processor : B → List R) :
    process_blocks raw_blocks block_processor =
      (raw_blocks.map block_processor).flatten := by
  simpa [process_blocks] using
    foldl_append_map_eq_flatten block_processor raw_blocks []

/-- The `main.py` worker concatenates the processor outputs in block order. -/
theorem main_stream_blocks_eq_flatten {B R : Type} (block_processor : B → List R)
    (stream : List B) :
    main_stream_blocks block_processor stream =
      (stream.map block_processor).flatten := by
  simpa [main_stream_blocks] using
    foldl_append_map_eq_flatten block_processor stream []

/-- The processed streaming loop, on an error-free stream, returns every
yielded value in block-arrival order. -/
theorem streamLoopProcessed_ok {B R : Type} (p : B → List R) (start end_ : Int) :
    ∀ (blocks : List B) (cur : Int) (acc : List R),
      streamLoopProcessed p start end_ cur acc (blocks.map StreamItem.block) =
        .ok (acc ++ (blocks.map p).flatten)
  | [], cur, acc => by simp [streamLoopProcessed]
  | b :: bs, cur, acc => by
      simp only [List.map_cons, streamLoopProcessed]
      rw [streamLoopProcessed_ok p start end_ bs (cur + 1) (acc ++ p b)]
      simp

/-- The raw streaming loop, on an error-free stream, returns every block in
arrival order. -/
theorem streamLoopRaw_ok {B : Type} (start end_ : Int) :
    ∀ (blocks : List B) (cur : Int) (acc : List B),
      streamLoopRaw start end_ cur acc (blocks.map StreamItem.block) =
        .ok (acc ++ blocks)
  | [], cur, acc => by simp [streamLoopRaw]
  | b :: bs, cur, acc => by
      simp only [List.map_cons, streamLoopRaw]
      rw [streamLoopRaw_ok start end_ bs (cur + 1) (acc ++ [b])]
      simp

/-- The processed streaming loop aborts on an RPC error with the block
number it was awaiting: the starting counter plus the number of blocks
already delivered. -/
theorem streamLoopProcessed_err {B R : Type} (p : B → List R) (start end_ : Int)
    (rest : List (StreamItem B)) :
    ∀ (blocks : List B) (cur : Int) (acc : List R),
      streamLoopProcessed p start end_ cur acc
        (blocks.map StreamItem.block ++ StreamItem.rpcError :: rest) =
        .error ⟨start, end_, cur + blocks.length⟩
  | [], cur, acc => by simp [streamLoopProcessed]
  | b :: bs, cur, acc => by
      simp only [List.map_cons, List.cons_append, streamLoopProcessed,
        List.append_eq]
      rw [streamLoopProcessed_err p start end_ rest bs (cur + 1) (acc ++ p b)]
      congr 1
      simp only [List.length_cons]
      push_cast
      ring_nf

/-- The raw streaming loop aborts on an RPC error with the block number it
was awaiting. -/
theorem streamLoopRaw_err {B : Type} (start end_ : Int)
    (rest : List (StreamItem B)) :
    ∀ (blocks : List B) (cur : Int) (acc : List B),
      streamLoopRaw start end_ cur acc
        (blocks.map StreamItem.block ++ StreamItem.rpcError :: rest) =
        .error ⟨start, end_, cur + blocks.length⟩
  | [], cur, acc => by simp [streamLoopRaw]
  | b :: bs, cur, acc => by
      simp only [List.map_cons, List.cons_append, streamLoopRaw,
        List.append_eq]
      rw [streamLoopRaw_err start end_ rest bs (cur + 1) (acc ++ [b])]
      congr 1
      simp only [List.length_cons]
      push_cast
      ring_nf

/-- `stream_blocks` with a block processor, on an error-free stream,
returns exactly the processor outputs in block-arrival order. -/
theorem stream_blocks_ok {B R : Type} (p : B → List R) (start end_ : Int)
    (blocks : List B) :
    stream_blocks start end_ (some p) (blocks.map StreamItem.block) =
      .ok (((blocks.map p).flatten).map Sum.inr) := by
  simp [stream_blocks, streamLoopProcessed_ok p start end_ blocks start [],
    Except.map]

/-- `stream_blocks`, with or without a block processor, aborts on an RPC
error after `k` delivered blocks with
`BlockStreamException start end_ (start + k)`. -/
theorem stream_blocks_err {B R : Type} (bp : Option (B → List R))
    (start end_ : Int) (blocks : List B) (rest : List (StreamItem B)) :
    stream_blocks start end_ bp
        (blocks.map StreamItem.block ++ StreamItem.rpcError :: rest) =
      .error ⟨start, end_, start + blocks.length⟩ := by
  cases bp with
  | some p =>
      simp [stream_blocks, streamLoopProcessed_err p start end_ rest blocks start [],
        Except.map]
  | none =>
      simp [stream_blocks, streamLoopRaw_err start end_ rest blocks start [],
        Except.map]

/-- A flattened map whose pieces all have length one has the length of the
original list. -/
theorem flatten_map_length_one {B R : Type} (p : B → List R)
    (hone : ∀ b, (p b).length = 1) :
    ∀ blocks : List B, ((blocks.map p).flatten).length = blocks.length
  | [] => by simp
  | b :: bs => by
      simp [flatten_map_length_one p hone bs, hone b, Nat.add_comm]

/- ---------------------------------------------------------------------- -/
/- Claims C4, C9, C6, C5                                                  -/
/- ---------------------------------------------------------------------- -/

/-- C4: a stream worker over `[start, end_)` hitting an RPC error after
successfully receiving `k` blocks stops immediately and produces a
`BlockStreamException` whose fields are exactly the sub-range bounds and
the block number being awaited, `start + k`; in particular a worker over
`[1000, 1100)` failing while awaiting block `1050` (after 50 received
blocks) reports exactly `⟨1000, 1100, 1050⟩`. -/
theorem stream_failure_fields {B R : Type} (bp : Option (B → List R))
    (start end_ : Int) (blocks : List B) (rest : List (StreamItem B)) :
    stream_blocks start end_ bp
        (blocks.map StreamItem.block ++ StreamItem.rpcError :: rest) =
      .error ⟨start, end_, start + blocks.length⟩ ∧
    stream_blocks (B := Nat) (R := Nat) 1000 1100 (some fun b => [b])
        (((List.range 50).map StreamItem.block) ++ [StreamItem.rpcError]) =
      .error ⟨1000, 1100, 1050⟩ := by
  refine ⟨stream_blocks_err bp start end_ blocks rest, ?_⟩
  have h := stream_blocks_err (B := Nat) (R := Nat) (some fun b => [b])
    1000 1100 (List.range 50) []
  simpa using h

/-- C9: a stream worker invocation that ends in an RPC error returns no
partial data to its caller — it produces a `BlockStreamException` and never
an `ok` list, whatever was accumulated before the error. -/
theorem stream_failure_discards_records {B R : Type} (bp : Option (B → List R))
    (start end_ : Int) (blocks : List B) (rest : List (StreamItem B)) :
    (∃ exc : BlockStreamException,
       stream_blocks start end_ bp
         (blocks.map StreamItem.block ++ StreamItem.rpcError :: rest) =
         .error exc) ∧
    (∀ l : List (B ⊕ R),
       stream_blocks start end_ bp
         (blocks.map StreamItem.block ++ StreamItem.rpcError :: rest) ≠
         .ok l) := by
  have h := stream_blocks_err bp start end_ blocks rest
  exact ⟨⟨_, h⟩, fun l hl => by rw [h] at hl; exact Except.noConfusion hl⟩

/-- C6: a worker over a sub-range of width `W` whose stream delivers
exactly the `W` blocks, with a block processor emitting exactly one record
per block, outputs exactly `W` records — both for the
`pyfirehose` `stream_blocks` worker and for the inner worker of
`src/main.py`. -/
theorem worker_width_records {B R : Type} (p : B → List R) (start end_ : Int)
    (blocks : List B) (W : Nat) (hW : blocks.length = W)
    (hone : ∀ b, (p b).length = 1) :
    (∃ l : List (B ⊕ R),
       stream_blocks start end_ (some p) (blocks.map StreamItem.block) =
         .ok l ∧ l.length = W) ∧
    (main_stream_blocks p blocks).length = W := by
  constructor
  · refine ⟨_, stream_blocks_ok p start end_ blocks, ?_⟩
    rw [List.length_map, flatten_map_length_one p hone blocks, hW]
  · rw [main_stream_blocks_eq_flatten, flatten_map_length_one p hone blocks, hW]

/-- C6 witness: five blocks, an identity-like one-record processor, five
records out. -/
theorem worker_width_records_witness :
    (([10, 20, 30, 40, 50] : List Nat).length = 5 ∧
       ∀ b : Nat, ([b].length = 1)) ∧
    ((∃ l : List (Nat ⊕ Nat),
        stream_blocks 0 5 (some fun b => [b])
          (([10, 20, 30, 40, 50] : List Nat).map StreamItem.block) =
          .ok l ∧ l.length = 5) ∧
     (main_stream_blocks (fun b => [b]) ([10, 20, 30, 40, 50] : List Nat)).length = 5) :=
  ⟨⟨rfl, fun _ => rfl⟩,
   worker_width_records (fun b => [b]) 0 5 [10, 20, 30, 40, 50] 5 rfl
     (fun _ => rfl)⟩

/-- C5: on an all-success run the aggregated result is the concatenation of
every worker's record list in worker-index order (`run` gathers with
`data += await t` in task order; `process_blocks` likewise concatenates),
and within each worker the records appear in block-arrival order (the
worker's output is exactly the in-order concatenation of the processor's
per-block outputs). -/
theorem aggregator_concat_order {B R : Type} (p : B → List R) (start end_ : Int) :
    (∀ results : List (List R), run_gather results = results.flatten) ∧
    (∀ raw_blocks : List B,
       process_blocks raw_blocks p = (raw_blocks.map p).flatten) ∧
    (∀ blocks : List B,
       stream_blocks start end_ (some p) (blocks.map StreamItem.block) =
         .ok (((blocks.map p).flatten).map Sum.inr)) :=
  ⟨fun results => run_gather_eq_flatten results,
   fun raw_blocks => process_blocks_eq_flatten raw_blocks p,
   fun blocks => stream_blocks_ok p start end_ blocks⟩

/- ---------------------------------------------------------------------- -/
/- Dictionary lemmas and claim C7                                         -/
/- ---------------------------------------------------------------------- -/

/-- Reading a key from a Python dict (first — and, for dicts built by
`dictUpdate`, only — entry with that key). -/
def pyGet : List (String × PyValue) → String → Option PyValue
  | [], _ => none
  | e :: es, k => if e.1 = k then some e.2 else pyGet es k

/-- A list with no entry for key `q` reads as `none`. -/
theorem pyGet_eq_none_of_not_any :
    ∀ (d : List (String × PyValue)) (q : String),
      d.any (fun p => p.1 = q) = false → pyGet d q = none
  | [], _, _ => rfl
  | e :: es, q, h => by
      simp only [List.any_cons, Bool.or_eq_false_iff, decide_eq_false_iff_not] at h
      simp [pyGet, h.1, pyGet_eq_none_of_not_any es q (by simpa using h.2)]

/-- Reading after appending a fresh entry falls through to the entry when
the head list has no value for the key. -/
theorem pyGet_append_single :
    ∀ (d : List (String × PyValue)) (kv : String × PyValue) (k : String),
      pyGet (d ++ [kv]) k =
        match pyGet d k with
        | some v => some v
        | none => if kv.1 = k then some kv.2 else none
  | [], kv, k => by simp [pyGet]
  | e :: es, kv, k => by
      by_cases h : e.1 = k
      · simp [pyGet, h]
      · simp [pyGet, h, pyGet_append_single es kv k]

/-- Reading after an in-place overwrite of key `kv.1`. -/
theorem pyGet_map_replace :
    ∀ (d : List (String × PyValue)) (kv : String × PyValue) (k : String),
      pyGet (d.map fun p => if p.1 = kv.1 then kv else p) k =
        if kv.1 = k then
          (if d.any (fun p => p.1 = kv.1) then some kv.2 else none)
        else pyGet d k
  | [], kv, k => by simp [pyGet]
  | e :: es, kv, k => by
      simp only [List.map_cons, pyGet]
      rw [pyGet_map_replace es kv k]
      by_cases h1 : e.1 = kv.1
      · rw [if_pos h1]
        by_cases h2 : kv.1 = k
        · simp [pyGet, h1, h2, List.any_cons]
        · have h3 : ¬ e.1 = k := by rw [h1]; exact h2
          simp [pyGet, h1, h2, h3, List.any_cons]
      · rw [if_neg h1]
        by_cases h3 : e.1 = k
        · have h2 : ¬ kv.1 = k := fun hk => h1 (by rw [h3, hk])
          simp [pyGet, h1, h2, h3, List.any_cons]
        · have hor : (decide (e.1 = kv.1) || es.any fun p => decide (p.1 = kv.1)) =
              (es.any fun p => decide (p.1 = kv.1)) := by
            rw [decide_eq_false h1, Bool.false_or]
          simp only [pyGet, h3, if_neg h3, List.any_cons, hor]
          simp

/-- Reading after a Python dict insert: the inserted key now carries the
inserted value, all other keys are unchanged. -/
theorem pyGet_dictUpdate (d : List (String × PyValue)) (kv : String × PyValue)
    (k : String) :
    pyGet (dictUpdate d kv) k = if kv.1 = k then some kv.2 else pyGet d k := by
  unfold dictUpdate
  by_cases hany : d.any (fun p => p.1 = kv.1)
  · rw [if_pos hany, pyGet_map_replace d kv k]
    by_cases h2 : kv.1 = k
    · rw [if_pos h2, if_pos h2, if_pos hany]
    · rw [if_neg h2, if_neg h2]
  · rw [Bool.not_eq_true] at hany
    rw [if_neg (by simp [hany]), pyGet_append_single d kv k]
    by_cases h2 : kv.1 = k
    · have hnone : pyGet d k = none :=
        pyGet_eq_none_of_not_any d k (h2 ▸ hany)
      simp [hnone, h2]
    · cases hd : pyGet d k <;> simp [h2, hd]

/-- Last-entry-wins lookup over an append: the right part takes
precedence. -/
theorem lookupLastKey_append :
    ∀ (a b : List (String × PyValue)) (k : String),
      lookupLastKey (a ++ b) k =
        match lookupLastKey b k with
        | some v => some v
        | none => lookupLastKey a k
  | [], b, k => by cases h : lookupLastKey b k <;> simp [lookupLastKey, h]
  | e :: a, b, k => by
      show (match lookupLastKey (a ++ b) k with
            | some v => some v
            | none => if e.1 = k then some e.2 else none) = _
      rw [lookupLastKey_append a b k]
      cases hb : lookupLastKey b k <;> cases ha : lookupLastKey a k <;>
        simp [lookupLastKey, ha]

/-- Reading a dict built by left-to-right inserts gives the value of the
last entry carrying the key. -/
theorem pyGet_foldl_dictUpdate :
    ∀ (es : List (String × PyValue)) (d : List (String × PyValue)) (k : String),
      pyGet (es.foldl dictUpdate d) k =
        match lookupLastKey es k with
        | some v => some v
        | none => pyGet d k
  | [], d, k => by simp [lookupLastKey]
  | e :: es, d, k => by
      rw [List.foldl_cons, pyGet_foldl_dictUpdate es (dictUpdate d e) k,
        pyGet_dictUpdate d e k]
      show _ = (match (match lookupLastKey es k with
                       | some v => some v
                       | none => if e.1 = k then some e.2 else none) with
                | some v => some v
                | none => pyGet d k)
      cases lookupLastKey es k <;> by_cases h : e.1 = k <;> simp [h]

/-- C7 (amended): in the request dictionary
`{start_block_num, stop_block_num, **StubConfig.REQUEST_PARAMETERS,
**kwargs}`, per-call *keyword* arguments take the highest precedence, the
stub-config parameters the next, and the positional
`start_block_num`/`stop_block_num` arguments the lowest: a key set in
`kwargs` reads its `kwargs` value, a key set only in the config reads its
config value (even for `start_block_num`/`stop_block_num`), and a key set
in neither reads the positional defaults. -/
theorem request_params_precedence (start stop_block : Int)
    (config kwargs : List (String × PyValue)) (k : String) :
    (lookupLastKey kwargs k ≠ none →
       pyGet (request_parameters start stop_block config kwargs) k =
         lookupLastKey kwargs k) ∧
    (lookupLastKey kwargs k = none → lookupLastKey config k ≠ none →
       pyGet (request_parameters start stop_block config kwargs) k =
         lookupLastKey config k) ∧
    (lookupLastKey kwargs k = none → lookupLastKey config k = none →
       pyGet (request_parameters start stop_block config kwargs) k =
         lookupLastKey
           [("start_block_num", PyValue.int start),
            ("stop_block_num", PyValue.int stop_block)] k) := by
  have hbase :
      pyGet (request_parameters start stop_block config kwargs) k =
        match lookupLastKey
            (([("start_block_num", PyValue.int start),
               ("stop_block_num", PyValue.int stop_block)]
              ++ config) ++ kwargs) k with
        | some v => some v
        | none => pyGet ([] : List (String × PyValue)) k := by
    unfold request_parameters
    rw [pyGet_foldl_dictUpdate]
  rw [lookupLastKey_append, lookupLastKey_append] at hbase
  refine ⟨fun h1 => ?_, fun h1 h2 => ?_, fun h1 h2 => ?_⟩
  · cases hk : lookupLastKey kwargs k with
    | none => exact absurd hk h1
    | some v =>
        rw [hk] at hbase
        exact hbase
  · rw [h1] at hbase
    cases hc : lookupLastKey config k with
    | none => exact absurd hc h2
    | some v =>
        rw [hc] at hbase
        exact hbase
  · rw [h1, h2] at hbase
    rw [hbase]
    cases hb : lookupLastKey
        [("start_block_num", PyValue.int start),
         ("stop_block_num", PyValue.int stop_block)] k <;> rfl

/-- C7 witness: a key present in both the stub config and the per-call
keyword arguments reads the keyword value. -/
theorem request_params_precedence_witness :
    lookupLastKey [("compression", PyValue.obj 1)] "compression" ≠ none ∧
    pyGet (request_parameters 100 200
        [("compression", PyValue.obj 0), ("start_block_num", PyValue.int 42)]
        [("compression", PyValue.obj 1)]) "compression" =
      lookupLastKey [("compression", PyValue.obj 1)] "compression" :=
  ⟨by decide,
   (request_params_precedence 100 200
      [("compression", PyValue.obj 0), ("start_block_num", PyValue.int 42)]
      [("compression", PyValue.obj 1)] "compression").1 (by decide)⟩

/-- C7 counterexample: the claim as stated fails for `start_block_num` —
with a stub config containing `start_block_num = 42` and no keyword
arguments, the per-call argument `start = 100` is *not* the value sent: the
config value overrides it, because the positional entries are written
before `**StubConfig.REQUEST_PARAMETERS` in the dict literal. -/
theorem request_params_config_overrides_cex :
    pyGet (request_parameters 100 200 [("start_block_num", PyValue.int 42)] [])
        "start_block_num" = some (PyValue.int 42) ∧
    some (PyValue.int 42) ≠ some (PyValue.int 100) := by
  exact ⟨by decide, by decide⟩

/- ---------------------------------------------------------------------- -/
/- Interval chains: machinery for the range-splitter claims               -/
/- ---------------------------------------------------------------------- -/

/-- A list of half-open intervals chained from `a` to `b`: each interval
starts where the previous one ended, no interval ends before it starts, and
the last one ends at `b`. -/
def chainCover : Int → Int → List (Int × Int) → Prop
  | a, b, [] => a = b
  | a, b, r :: rs => r.1 = a ∧ a ≤ r.2 ∧ chainCover r.2 b rs

/-- A chain from `a` to `b` forces `a ≤ b`. -/
theorem chainCover_le :
    ∀ {a b : Int} {rs : List (Int × Int)}, chainCover a b rs → a ≤ b
  | _, _, [], h => le_of_eq h
  | _, _, _ :: _, h => le_trans h.2.1 (chainCover_le h.2.2)

/-- Every interval of a chain from `a` starts at or after `a`. -/
theorem chainCover_mem_start :
    ∀ {a b : Int} {rs : List (Int × Int)}, chainCover a b rs →
      ∀ r ∈ rs, a ≤ r.1
  | _, _, [], _, r, hr => absurd hr (List.not_mem_nil r)
  | _, _, s :: rs, h, r, hr => by
      rcases List.mem_cons.mp hr with h1 | h1
      · subst h1
        exact le_of_eq h.1.symm
      · exact le_trans h.2.1 (chainCover_mem_start h.2.2 r h1)

/-- The intervals of a chain from `a` to `b` cover exactly `[a, b)`. -/
theorem chainCover_union :
    ∀ {a b : Int} {rs : List (Int × Int)}, chainCover a b rs →
      ∀ x : Int, (∃ r ∈ rs, r.1 ≤ x ∧ x < r.2) ↔ (a ≤ x ∧ x < b)
  | a, b, [], h, x => by
      have h0 : a = b := h
      simp
      omega
  | a, b, r :: rs, h, x => by
      obtain ⟨h1, h2, h3⟩ := h
      have ih := chainCover_union h3 x
      have hb := chainCover_le h3
      rw [List.exists_mem_cons_iff, ih]
      omega

/-- The intervals of a chain are pairwise ordered, hence non-overlapping. -/
theorem chainCover_pairwise :
    ∀ {a b : Int} {rs : List (Int × Int)}, chainCover a b rs →
      rs.Pairwise (fun r s => r.2 ≤ s.1)
  | _, _, [], _ => List.Pairwise.nil
  | _, _, _ :: _, h =>
      List.Pairwise.cons (fun s hs => chainCover_mem_start h.2.2 s hs)
        (chainCover_pairwise h.2.2)

/-- The consecutive-endpoint list built from any locally monotone `g` is a
chain from `g k` to `g (k + m)`. -/
theorem chainCover_map_range (g : Nat → Int) (hg : ∀ i, g i ≤ g (i + 1)) :
    ∀ (m k : Nat),
      chainCover (g k) (g (k + m))
        ((List.range m).map fun i => (g (k + i), g (k + i + 1)))
  | 0, k => by simp [chainCover]
  | m + 1, k => by
      have e : k + (m + 1) = (k + 1) + m := by omega
      rw [List.range_succ_eq_map, List.map_cons, List.map_map, e]
      have hlist : (List.range m).map
            ((fun i => (g (k + i), g (k + i + 1))) ∘ Nat.succ) =
          (List.range m).map fun i => (g (k + 1 + i), g (k + 1 + i + 1)) := by
        apply List.map_congr_left
        intro i _
        have e1 : k + Nat.succ i = k + 1 + i := by omega
        have e2 : k + Nat.succ i + 1 = k + 1 + i + 1 := by omega
        simp [Function.comp, e1, e2]
      rw [hlist]
      exact ⟨by simp, by simpa using hg k, chainCover_map_range g hg m (k + 1)⟩

/-- Normal form of the splitter when the clamped task count is nonzero. -/
theorem splitRanges_eq (ps pe mt : Int)
    (hne : clampTasks (pe - ps) mt ≠ 0) :
    splitRanges ps pe mt =
      some ((List.range (clampTasks (pe - ps) mt).toNat).map fun (i : Nat) =>
        (ps + (i : Int) * ((pe - ps).fdiv (clampTasks (pe - ps) mt)),
         if (i : Int) < clampTasks (pe - ps) mt - 1
         then ps + ((i : Int) + 1) * ((pe - ps).fdiv (clampTasks (pe - ps) mt))
         else pe)) := by
  unfold splitRanges
  simp only [if_neg hne]

/-- The splitter hits the `ZeroDivisionError` exactly when the clamped task
count is zero. -/
theorem splitRanges_none (ps pe mt : Int)
    (h : clampTasks (pe - ps) mt = 0) :
    splitRanges ps pe mt = none := by
  unfold splitRanges
  simp only [if_pos h]

/-- The sub-range list produced by the splitter is a chain from
`period_start` to `period_end`, for any task count `m` and chunk `c` with
`1 ≤ m`, `1 ≤ c` and `m * c ≤ pe - ps`. -/
theorem chain_subranges (ps pe m c : Int) (hm1 : 1 ≤ m) (hc1 : 1 ≤ c)
    (hcm : m * c ≤ pe - ps) :
    chainCover ps pe ((List.range m.toNat).map fun (i : Nat) =>
      (ps + (i : Int) * c,
       if (i : Int) < m - 1 then ps + ((i : Int) + 1) * c else pe)) := by
  have hmN : ((m.toNat : Int)) = m := Int.toNat_of_nonneg (by omega)
  set g : Nat → Int := fun i => if i < m.toNat then ps + (i : Int) * c else pe
    with hgdef
  have hg : ∀ i, g i ≤ g (i + 1) := by
    intro i
    by_cases hi1 : i + 1 < m.toNat
    · have hi0 : i < m.toNat := by omega
      simp only [hgdef, if_pos hi0, if_pos hi1]
      push_cast
      nlinarith
    · by_cases hi0 : i < m.toNat
      · simp only [hgdef, if_pos hi0, if_neg hi1]
        have hiI : (i : Int) ≤ m - 1 := by omega
        nlinarith [mul_le_mul_of_nonneg_right hiI (by linarith : (0:Int) ≤ c)]
      · simp only [hgdef, if_neg hi0, if_neg hi1]
        exact le_rfl
  have hg0 : g 0 = ps := by
    have h0 : 0 < m.toNat := by omega
    simp only [hgdef]
    rw [if_pos h0]
    norm_num
  have hgm : g m.toNat = pe := by
    simp only [hgdef]
    rw [if_neg (lt_irrefl _)]
  have hlist : ((List.range m.toNat).map fun (i : Nat) =>
      (ps + (i : Int) * c,
       if (i : Int) < m - 1 then ps + ((i : Int) + 1) * c else pe)) =
      (List.range m.toNat).map fun i => (g i, g (i + 1)) := by
    apply List.map_congr_left
    intro i hi
    have hiN : i < m.toNat := List.mem_range.mp hi
    have hfst : g i = ps + (i : Int) * c := by
      simp only [hgdef]
      rw [if_pos hiN]
    rw [Prod.mk.injEq]
    refine ⟨hfst.symm, ?_⟩
    by_cases hcnd : (i : Int) < m - 1
    · have hi1 : i + 1 < m.toNat := by omega
      rw [if_pos hcnd]
      simp only [hgdef, if_pos hi1]
      push_cast
      ring
    · have hi1 : ¬ (i + 1 < m.toNat) := by omega
      rw [if_neg hcnd]
      simp only [hgdef, if_neg hi1]
  have hchain := chainCover_map_range g hg m.toNat 0
  simp only [Nat.zero_add] at hchain
  rw [hg0, hgm] at hchain
  rw [hlist]
  exact hchain

/- ---------------------------------------------------------------------- -/
/- Claims C1, C2, C10                                                     -/
/- ---------------------------------------------------------------------- -/

/-- C1 (amended to `period_start < period_end`; at
`period_start = period_end` the splitter divides by zero, see the
counterexample and C10): for `period_start < period_end` and
`max_tasks ≥ 1`, sub-range `i` starts at `period_start + i*chunk` and ends
at `period_start + (i+1)*chunk`, with `chunk` the floor of
`(period_end - period_start) / clamped task count`, the last sub-range
extending to `period_end`; the sub-ranges are contiguous, pairwise
non-overlapping, and their union is exactly
`[period_start, period_end)`. -/
theorem range_splitter_partition (ps pe mt : Int) (h1 : ps < pe)
    (h2 : 1 ≤ mt) :
    ∃ rs : List (Int × Int),
      splitRanges ps pe mt = some rs ∧
      rs.length = (clampTasks (pe - ps) mt).toNat ∧
      (∀ i (hi : i < rs.length),
        (rs.get ⟨i, hi⟩).1 =
          ps + (i : Int) * ((pe - ps).fdiv (clampTasks (pe - ps) mt)) ∧
        (rs.get ⟨i, hi⟩).2 =
          (if (i : Int) < clampTasks (pe - ps) mt - 1
           then ps + ((i : Int) + 1) *
             ((pe - ps).fdiv (clampTasks (pe - ps) mt))
           else pe)) ∧
      (∀ i (hi : i + 1 < rs.length),
        (rs.get ⟨i, Nat.lt_of_succ_lt hi⟩).2 = (rs.get ⟨i + 1, hi⟩).1) ∧
      rs.Pairwise (fun r s => r.2 ≤ s.1) ∧
      (∀ x : Int, (ps ≤ x ∧ x < pe) ↔ ∃ r ∈ rs, r.1 ≤ x ∧ x < r.2) := by
  have hm1 : 1 ≤ clampTasks (pe - ps) mt := by
    unfold clampTasks
    split <;> omega
  have hmle : clampTasks (pe - ps) mt ≤ pe - ps := by
    unfold clampTasks
    split <;> omega
  have hne : clampTasks (pe - ps) mt ≠ 0 := by omega
  have hfd : (pe - ps).fdiv (clampTasks (pe - ps) mt) =
      (pe - ps) / clampTasks (pe - ps) mt := Int.fdiv_eq_ediv _ (by omega)
  have hc1 : 1 ≤ (pe - ps).fdiv (clampTasks (pe - ps) mt) := by
    rw [hfd,
      Int.le_ediv_iff_mul_le (by omega : (0:Int) < clampTasks (pe - ps) mt)]
    omega
  have hcm : clampTasks (pe - ps) mt *
      ((pe - ps).fdiv (clampTasks (pe - ps) mt)) ≤ pe - ps := by
    rw [hfd]
    have hdm := Int.ediv_add_emod (pe - ps) (clampTasks (pe - ps) mt)
    have hmod := Int.emod_nonneg (pe - ps) hne
    linarith
  have hchain := chain_subranges ps pe (clampTasks (pe - ps) mt)
    ((pe - ps).fdiv (clampTasks (pe - ps) mt)) hm1 hc1 hcm
  refine ⟨_, splitRanges_eq ps pe mt hne, by simp, ?_, ?_,
    chainCover_pairwise hchain, fun x => (chainCover_union hchain x).symm⟩
  · intro i hi
    constructor
    · simp [List.get_eq_getElem, List.getElem_map, List.getElem_range]
    · simp [List.get_eq_getElem, List.getElem_map, List.getElem_range]
  · intro i hi
    have hiN : i + 1 < (clampTasks (pe - ps) mt).toNat := by simpa using hi
    simp only [List.get_eq_getElem, List.getElem_map, List.getElem_range]
    rw [if_pos (by omega : (i : Int) < clampTasks (pe - ps) mt - 1)]
    push_cast
    ring

/-- C1 witness: splitting `[100, 110)` over 2 tasks. -/
theorem range_splitter_partition_witness :
    ((100:Int) < 110 ∧ (1:Int) ≤ 2) ∧
    (∃ rs : List (Int × Int),
      splitRanges 100 110 2 = some rs ∧
      rs.length = (clampTasks (110 - 100) 2).toNat ∧
      (∀ i (hi : i < rs.length),
        (rs.get ⟨i, hi⟩).1 =
          100 + (i : Int) * ((110 - 100 : Int).fdiv (clampTasks (110 - 100) 2)) ∧
        (rs.get ⟨i, hi⟩).2 =
          (if (i : Int) < clampTasks (110 - 100) 2 - 1
           then 100 + ((i : Int) + 1) *
             ((110 - 100 : Int).fdiv (clampTasks (110 - 100) 2))
           else 110)) ∧
      (∀ i (hi : i + 1 < rs.length),
        (rs.get ⟨i, Nat.lt_of_succ_lt hi⟩).2 = (rs.get ⟨i + 1, hi⟩).1) ∧
      rs.Pairwise (fun r s => r.2 ≤ s.1) ∧
      (∀ x : Int, ((100:Int) ≤ x ∧ x < 110) ↔ ∃ r ∈ rs, r.1 ≤ x ∧ x < r.2)) :=
  ⟨⟨by norm_num, by norm_num⟩,
   range_splitter_partition 100 110 2 (by norm_num) (by norm_num)⟩

/-- C1 counterexample: at `period_start = period_end = 5` — allowed by the
claim's precondition `period_start ≤ period_end` — with `max_tasks = 1`,
the splitter produces no sub-ranges at all: the clamped task count is zero
and the Python code raises `ZeroDivisionError`. -/
theorem range_splitter_empty_range_cex :
    (5:Int) ≤ 5 ∧ (1:Int) ≥ 1 ∧ splitRanges 5 5 1 = none ∧
    ∀ rs : List (Int × Int), splitRanges 5 5 1 ≠ some rs := by
  have h : splitRanges 5 5 1 = none := by decide
  exact ⟨le_refl _, le_refl _, h,
    fun rs hrs => by rw [h] at hrs; exact Option.noConfusion hrs⟩

/-- C2 (amended to `period_start < period_end`; at
`period_start = period_end` the splitter divides by zero instead of
producing zero sub-ranges): for `max_tasks > period_end - period_start`
the clamp makes the number of produced sub-ranges exactly
`period_end - period_start`, never exceeding it. -/
theorem range_splitter_clamped_count (ps pe mt : Int) (h1 : ps < pe)
    (h2 : pe - ps < mt) :
    ∃ rs : List (Int × Int), splitRanges ps pe mt = some rs ∧
      rs.length = (pe - ps).toNat ∧ rs.length ≤ (pe - ps).toNat := by
  have hclamp : clampTasks (pe - ps) mt = pe - ps := by
    unfold clampTasks
    rw [if_pos h2]
  have hne : clampTasks (pe - ps) mt ≠ 0 := by omega
  refine ⟨_, splitRanges_eq ps pe mt hne, ?_, ?_⟩
  · simp [hclamp]
  · simp [hclamp]

/-- C2 witness: three blocks split over (up to) 99 tasks gives exactly
three sub-ranges. -/
theorem range_splitter_clamped_count_witness :
    ((0:Int) < 3 ∧ (3:Int) - 0 < 99) ∧
    (∃ rs : List (Int × Int), splitRanges 0 3 99 = some rs ∧
      rs.length = ((3:Int) - 0).toNat ∧ rs.length ≤ ((3:Int) - 0).toNat) :=
  ⟨⟨by norm_num, by norm_num⟩,
   range_splitter_clamped_count 0 3 99 (by norm_num) (by norm_num)⟩

/-- C2 counterexample: at `period_start = period_end = 7` with
`max_tasks = 3 > 0 = period_end - period_start`, the claim demands zero
sub-ranges, but the splitter produces none at all — the Python code
raises `ZeroDivisionError` instead. -/
theorem range_splitter_clamp_empty_cex :
    (7:Int) ≤ 7 ∧ (7:Int) - 7 < 3 ∧ splitRanges 7 7 3 = none ∧
    ∀ rs : List (Int × Int), splitRanges 7 7 3 ≠ some rs := by
  have h : splitRanges 7 7 3 = none := by decide
  exact ⟨le_refl _, by norm_num, h,
    fun rs hrs => by rw [h] at hrs; exact Option.noConfusion hrs⟩

/-- C10: calling `run` with `period_start = period_end` (valid under the
spec's `period_start ≤ period_end` precondition) clamps the task count to
zero, so `split = block_diff // max_tasks` divides by zero: `run` ends in
an uncaught `ZeroDivisionError` after the (successful) authentication
request but before opening any stream, and no output file is written. -/
theorem run_empty_range_zero_division {B R : Type} (ps mt : Int)
    (h : 0 ≤ mt) (block_processor : B → List R)
    (streams : Int × Int → List B) :
    clampTasks (ps - ps) mt = 0 ∧
    splitRanges ps ps mt = none ∧
    run_main true ps ps mt block_processor streams =
      ([Effect.authRequest], RunOutcome.zeroDivisionError) := by
  have hc : clampTasks (ps - ps) mt = 0 := by
    unfold clampTasks
    split <;> omega
  refine ⟨hc, splitRanges_none ps ps mt hc, ?_⟩
  simp [run_main, splitRanges_none ps ps mt hc]

/-- C10 witness: `run` on the empty range `[42, 42)` with the default 20
tasks: only the auth request happens, then the division by zero. -/
theorem run_empty_range_zero_division_witness :
    (0:Int) ≤ 20 ∧
    (clampTasks ((42:Int) - 42) 20 = 0 ∧
     splitRanges 42 42 20 = none ∧
     run_main true 42 42 20 (fun b : Nat => [b]) (fun _ => ([] : List Nat)) =
       ([Effect.authRequest], RunOutcome.zeroDivisionError)) :=
  ⟨by norm_num,
   run_empty_range_zero_division 42 20 (by norm_num) (fun b : Nat => [b])
     (fun _ => ([] : List Nat))⟩

/- ---------------------------------------------------------------------- -/
/- Claims C3 and C8                                                       -/
/- ---------------------------------------------------------------------- -/

/-- C3 (amended): for every input with `period_end < period_start` both
entry points fail with a non-zero exit, no stream is opened and no output
file is written; the `main.py` entry point rejects the range before any
network activity at all (its trace is empty), while the `pyfirehose` entry
point has already performed the authenticator's network request at module
load, so its trace at exit is exactly that one network effect. -/
theorem invalid_range_rejected {B R : Type} (ps pe mt : Int) (h : pe < ps)
    (disableSigCheck : Bool) (procLoad : Option ProcessorInfo)
    (authOk : Bool) (block_processor : B → List R)
    (streams : Int × Int → List B) (runEffects : List Effect)
    (runRows : Nat) :
    main_py ps pe mt disableSigCheck procLoad authOk block_processor
        streams = ([], MainOutcome.argparseExit) ∧
    pyfirehose_main authOk ps pe disableSigCheck procLoad runEffects
        runRows = ([Effect.authRequest], PFOutcome.exitOne) ∧
    (∀ s e, Effect.openStream s e ∉
       (pyfirehose_main authOk ps pe disableSigCheck procLoad runEffects
         runRows).1) ∧
    (∀ n, Effect.writeFile n ∉
       (pyfirehose_main authOk ps pe disableSigCheck procLoad runEffects
         runRows).1) := by
  have hmain : main_py ps pe mt disableSigCheck procLoad authOk
      block_processor streams = ([], MainOutcome.argparseExit) := by
    unfold main_py
    rw [if_pos h]
  have hpf : pyfirehose_main authOk ps pe disableSigCheck procLoad
      runEffects runRows = ([Effect.authRequest], PFOutcome.exitOne) := by
    cases authOk with
    | false => rfl
    | true => simp [pyfirehose_main, get_auth_token, h]
  refine ⟨hmain, hpf, ?_, ?_⟩
  · intro s e
    rw [hpf]
    simp
  · intro n
    rw [hpf]
    simp

/-- C3 witness: `block_start = 3 > 1 = block_end`. -/
theorem invalid_range_rejected_witness :
    (1:Int) < 3 ∧
    (main_py 3 1 20 false none true (fun b : Nat => [b])
        (fun _ => ([] : List Nat)) = ([], MainOutcome.argparseExit) ∧
     pyfirehose_main true 3 1 false none [] 0 =
       ([Effect.authRequest], PFOutcome.exitOne) ∧
     (∀ s e, Effect.openStream s e ∉
        (pyfirehose_main true 3 1 false none [] 0).1) ∧
     (∀ n, Effect.writeFile n ∉
        (pyfirehose_main true 3 1 false none [] 0).1)) :=
  ⟨by norm_num,
   invalid_range_rejected 3 1 20 (by norm_num) false none true
     (fun b : Nat => [b]) (fun _ => ([] : List Nat)) [] 0⟩

/-- C3 counterexample: the claim as stated demands failure *before any
network activity takes place*, but on `period_start = 5 >
period_end = 1` the pyfirehose entry point's trace already contains the
authenticator's network request (performed at module load) when the
non-zero return happens. -/
theorem invalid_range_network_cex :
    (1:Int) < 5 ∧
    pyfirehose_main true 5 1 false none [] 0 =
      ([Effect.authRequest], PFOutcome.exitOne) ∧
    Effect.authRequest ∈ (pyfirehose_main true 5 1 false none [] 0).1 := by
  decide

/-- C8 (amended): with signature checking enabled, a partially annotated
processor (missing return annotation or an unannotated parameter) only
triggers a warning — both entry points continue into the run; a fully
annotated but incompatible processor (no parameter annotated as the block
type, return annotation not the record-mapping type, or not a generator
function) makes both entry points fail with a non-zero exit before any
stream is opened — in `main.py` before any network activity at all, while
the `pyfirehose` entry point has already performed the authenticator's
network request at module load. -/
theorem signature_check_routing {B R : Type} (info : ProcessorInfo)
    (ps pe mt : Int) (hrange : ps ≤ pe) (block_processor : B → List R)
    (streams : Int × Int → List B) (runEffects : List Effect)
    (runRows : Nat) :
    ((info.returnAnn = none ∨ none ∈ info.paramAnns) →
       check_signature info = CheckResult.warn ∧
       main_py ps pe mt false (some info) true block_processor streams =
         ((run_main true ps pe mt block_processor streams).1,
          MainOutcome.ran (run_main true ps pe mt block_processor streams).2) ∧
       pyfirehose_main true ps pe false (some info) runEffects runRows =
         (Effect.authRequest :: runEffects, PFOutcome.returned runRows)) ∧
    ((info.returnAnn ≠ none ∧ ¬ (none ∈ info.paramAnns) ∧
      (¬ (some Ann.block ∈ info.paramAnns) ∨
       info.returnAnn ≠ some Ann.dict ∨ ¬ info.isGenerator)) →
       check_signature info = CheckResult.typeError ∧
       main_py ps pe mt false (some info) true block_processor streams =
         ([], MainOutcome.loadExit) ∧
       pyfirehose_main true ps pe false (some info) runEffects runRows =
         ([Effect.authRequest], PFOutcome.raisedException)) := by
  constructor
  · intro hp
    have hcond : info.returnAnn = none ∨
        (info.paramAnns = [] ∧ info.paramAnns ≠ []) ∨
        (info.paramAnns.any (fun t => t = none)) = true := by
      rcases hp with hp | hp
      · exact Or.inl hp
      · refine Or.inr (Or.inr ?_)
        rw [List.any_eq_true]
        exact ⟨none, hp, by simp⟩
    have hw : check_signature info = CheckResult.warn := by
      unfold check_signature
      rw [if_pos hcond]
    refine ⟨hw, ?_, ?_⟩
    · simp [main_py, not_lt.mpr hrange, hw]
    · simp [pyfirehose_main, get_auth_token, not_lt.mpr hrange, hw]
  · intro hp
    have hw : check_signature info = CheckResult.typeError := by
      unfold check_signature
      split
      · rename_i hcond
        exfalso
        rcases hcond with hc | hc | hc
        · exact hp.1 hc
        · exact hc.2 hc.1
        · rw [List.any_eq_true] at hc
          obtain ⟨x, hx, hxn⟩ := hc
          exact hp.2.1 ((by simpa using hxn : x = none) ▸ hx)
      · split
        · rfl
        · rename_i hcond2
          exact absurd hp.2.2 hcond2
    refine ⟨hw, ?_, ?_⟩
    · simp [main_py, not_lt.mpr hrange, hw]
    · simp [pyfirehose_main, get_auth_token, not_lt.mpr hrange, hw]

/-- C8 witness: a fully annotated generator whose return annotation is not
the record-mapping type is rejected by both entry points. -/
theorem signature_check_routing_witness :
    (0:Int) ≤ 5 ∧
    ((((⟨some (Ann.other 0), [some Ann.block], true⟩ :
          ProcessorInfo).returnAnn = none ∨
       none ∈ (⟨some (Ann.other 0), [some Ann.block], true⟩ :
          ProcessorInfo).paramAnns) →
       check_signature ⟨some (Ann.other 0), [some Ann.block], true⟩ =
         CheckResult.warn ∧
       main_py 0 5 20 false (some ⟨some (Ann.other 0), [some Ann.block], true⟩)
           true (fun b : Nat => [b]) (fun _ => ([] : List Nat)) =
         ((run_main true 0 5 20 (fun b : Nat => [b])
             (fun _ => ([] : List Nat))).1,
          MainOutcome.ran (run_main true 0 5 20 (fun b : Nat => [b])
             (fun _ => ([] : List Nat))).2) ∧
       pyfirehose_main true 0 5 false
           (some ⟨some (Ann.other 0), [some Ann.block], true⟩) [] 0 =
         (Effect.authRequest :: [], PFOutcome.returned 0)) ∧
     (((⟨some (Ann.other 0), [some Ann.block], true⟩ :
          ProcessorInfo).returnAnn ≠ none ∧
       ¬ (none ∈ (⟨some (Ann.other 0), [some Ann.block], true⟩ :
          ProcessorInfo).paramAnns) ∧
       (¬ (some Ann.block ∈ (⟨some (Ann.other 0), [some Ann.block], true⟩ :
            ProcessorInfo).paramAnns) ∨
        (⟨some (Ann.other 0), [some Ann.block], true⟩ :
          ProcessorInfo).returnAnn ≠ some Ann.dict ∨
        ¬ (⟨some (Ann.other 0), [some Ann.block], true⟩ :
          ProcessorInfo).isGenerator)) →
       check_signature ⟨some (Ann.other 0), [some Ann.block], true⟩ =
         CheckResult.typeError ∧
       main_py 0 5 20 false (some ⟨some (Ann.other 0), [some Ann.block], true⟩)
           true (fun b : Nat => [b]) (fun _ => ([] : List Nat)) =
         ([], MainOutcome.loadExit) ∧
       pyfirehose_main true 0 5 false
           (some ⟨some (Ann.other 0), [some Ann.block], true⟩) [] 0 =
         ([Effect.authRequest], PFOutcome.raisedException))) :=
  ⟨by norm_num,
   signature_check_routing ⟨some (Ann.other 0), [some Ann.block], true⟩
     0 5 20 (by norm_num) (fun b : Nat => [b]) (fun _ => ([] : List Nat))
     [] 0⟩

/-- C8 counterexample: with a fully annotated but incompatible processor
(return annotation not the record-mapping type), the pyfirehose entry
point does fail, but only after the authenticator's network request made
at module load — its trace contains a network effect, refuting the
claim's "before any network connection is opened". -/
theorem signature_check_network_cex :
    check_signature ⟨some (Ann.other 0), [some Ann.block], true⟩ =
      CheckResult.typeError ∧
    pyfirehose_main true 1 5 false
        (some ⟨some (Ann.other 0), [some Ann.block], true⟩) [] 0 =
      ([Effect.authRequest], PFOutcome.raisedException) ∧
    Effect.authRequest ∈
      (pyfirehose_main true 1 5 false
        (some ⟨some (Ann.other 0), [some Ann.block], true⟩) [] 0).1 := by
  decide
